import Mathlib

/-
Verification of the SQLAlchemy template-filter core of the xsdata fork:
qualified-name resolution, relationship inference and column mapping, as
implemented in xsdata/formats/sqlalchemy/filters.py.

The class graph, the fully-qualified-name index and the filter operations are
embedded shallowly.  Naming-convention callables coming from the generator
configuration (case converters, alias tables, the safe-name sanitizer built on
the external text utilities) are parameters of the model, collected in `Conv`:
the source treats them as opaque configured functions, and none of the claims
depends on their internals.  Python object identity (`id(...)`, used by
`find_fqname_by_class`, and `clazz == obj`) is modelled by a numeric `idx`
carried by every class node.  Exceptions (`ValueError`, index errors) are
modelled with `Except String`.
-/

namespace Xsd

/-- One type reference of an attribute (xsdata `AttrType`): a qualified name,
the bare local name, an optional alias, an optional built-in datatype tag
(the Python type `__name__` when the reference is native), and the
forward/circular flags. -/
structure AttrType where
  qname : String
  name : String
  type_alias : Option String
  datatype : Option String
  forward : Bool
  circular : Bool
deriving DecidableEq, Repr

/-- One field of a class (xsdata `Attr`): a name, a non-empty ordered list of
type references and the cardinality flags consulted by the filters. -/
structure Attr where
  name : String
  types : List AttrType
  is_list : Bool
  is_tokens : Bool
  is_dict : Bool
  is_optional : Bool
  is_nillable : Bool
  is_enumeration : Bool
  default : Option String
deriving DecidableEq, Repr

/-- A base-type reference of a class (xsdata `Extension`). -/
structure Extension where
  type : AttrType
deriving DecidableEq, Repr

/-- A node of the class graph (xsdata `Class`): identity index, qualified
name, attributes, nested inner classes, extensions and the enumeration flag.
`idx` models Python object identity. -/
inductive ClassNode where
  | mk (idx : Nat) (qname : String) (attrs : List Attr) (inner : List ClassNode)
       (extensions : List Extension) (is_enumeration : Bool) : ClassNode

def ClassNode.idx : ClassNode → Nat
  | .mk i _ _ _ _ _ => i

def ClassNode.qname : ClassNode → String
  | .mk _ q _ _ _ _ => q

def ClassNode.attrs : ClassNode → List Attr
  | .mk _ _ a _ _ _ => a

def ClassNode.inner : ClassNode → List ClassNode
  | .mk _ _ _ n _ _ => n

def ClassNode.extensions : ClassNode → List Extension
  | .mk _ _ _ _ e _ => e

def ClassNode.is_enumeration : ClassNode → Bool
  | .mk _ _ _ _ _ e => e

/-- The configured naming conventions consumed by the filters (external
collaborators of the core, see the spec): the class alias table, the composite
class-name sanitizer `safe_name(·, class_safe_prefix, class_case)`, the raw
`field_case` callable, the `field_name` filter, and the two output-format
flags read by `field_type`. -/
structure Conv where
  class_aliases : List (String × String)
  class_case : String → String
  field_case : String → String
  field_name : String → Option String → String
  frozen : Bool
  kw_only : Bool

/-- First binding of a key in an association list (Python `dict.get`). -/
def lookup_alias : List (String × String) → String → Option String
  | [], _ => none
  | p :: rest, k => if p.1 = k then some p.2 else lookup_alias rest k

/-- The suffix of `l` strictly after the last right brace, if any. -/
def after_last_rbrace : List Char → Option (List Char)
  | [] => none
  | c :: rest =>
    match after_last_rbrace rest with
    | some r => some r
    | none => if c = '}' then some rest else none

/-- `re.sub(r"\x7b.*\x7d", "", name)`: the greedy pattern removes everything
from the first left brace through the last right brace after it (at most one
match can fire, since the greedy match consumes the final right brace). -/
def strip_braces_chars : List Char → List Char
  | [] => []
  | c :: rest =>
    if c = '{' then
      match after_last_rbrace rest with
      | some r => r
      | none => c :: strip_braces_chars rest
    else c :: strip_braces_chars rest

def strip_braces (s : String) : String :=
  String.mk (strip_braces_chars s.data)

/-- `class_name(name)` with no parents: alias lookup on the raw name, then
namespace-brace stripping, then the configured sanitizer. -/
def class_name (cv : Conv) (name : String) : String :=
  match lookup_alias cv.class_aliases name with
  | some a => a
  | none => cv.class_case (strip_braces name)

/-- `class_name(name, parents=...)`: when a parents chain is given the raw
name is discarded, the converted parent names are concatenated, and the
"InnerClass" disambiguation suffix is appended when more than one parent
segment was concatenated. -/
def class_name_parents (cv : Conv) (name : String) (parents : List String) : String :=
  match lookup_alias cv.class_aliases name with
  | some a => a
  | none =>
    if parents.isEmpty then cv.class_case (strip_braces name)
    else
      let base := parents.foldl (fun acc p => acc ++ class_name cv p) ""
      let base := if parents.length > 1 then base ++ "InnerClass" else base
      cv.class_case base

/-- `".".join(l)`. -/
def join_dot : List String → String
  | [] => ""
  | [x] => x
  | x :: y :: xs => x ++ "." ++ join_dot (y :: xs)

/-- `", ".join(l)`. -/
def join_comma : List String → String
  | [] => ""
  | [x] => x
  | x :: y :: xs => x ++ ", " ++ join_comma (y :: xs)

/-- Python `s.endswith(suffix)` (executable character-level version of the
built-in, since the core byte-position routines do not reduce). -/
def ends_with (s suffix : String) : Bool :=
  suffix.data.isSuffixOf s.data

/-- Split a character list at every occurrence of `sep`. -/
def split_chars (sep : Char) : List Char → List (List Char)
  | [] => [[]]
  | c :: rest =>
    match split_chars sep rest with
    | [] => [[c]]
    | g :: gs => if c = sep then [] :: g :: gs else (c :: g) :: gs

/-- Python `s.split(".")`. -/
def split_on_dot (s : String) : List String :=
  (split_chars '.' s.data).map String.mk

/-- Python `ch in s` for a single character. -/
def contains_char (s : String) (c : Char) : Bool :=
  s.data.any (fun x => x = c)

/-- Does `small` occur as a contiguous run inside `big`? -/
def sub_search (small : List Char) : List Char → Bool
  | [] => small.isEmpty
  | c :: rest => small.isPrefixOf (c :: rest) || sub_search small rest

/-- Python `small in big` on strings. -/
def str_contains (big small : String) : Bool :=
  sub_search small.data big.data

/-- The fully-qualified-name index `fqname_map`: an insertion-ordered mapping
from dotted path to class node (a Python `dict`). -/
def FqMap := List (String × ClassNode)

/-- `d[k] = v` on an insertion-ordered dict: overwrite in place, else append. -/
def dict_insert : FqMap → String → ClassNode → FqMap
  | [], k, v => [(k, v)]
  | p :: rest, k, v => if p.1 = k then (k, v) :: rest else p :: dict_insert rest k v

/-- `d[k]` / `k in d` on an insertion-ordered dict. -/
def dict_get : FqMap → String → Option ClassNode
  | [], _ => none
  | p :: rest, k => if p.1 = k then some p.2 else dict_get rest k

/-- The fqdn assigned to a class with converted name `cn` under an optional
parent fqdn: `".".join([parent_fqdn, class_name]) if parent_fqdn else
class_name`. -/
def child_fqdn (parent_fqdn : Option String) (cn : String) : String :=
  match parent_fqdn with
  | some p => p ++ "." ++ cn
  | none => cn

mutual

/-- One iteration of the `for clazz in classes` loop of
`set_class_fully_qualified_names`: record the class, then recurse into its
inner classes.  (The loop over `fqname_map.values()` in the source ends in a
bare `continue` and has no effect; it is not modelled.) -/
def set_fq_node (cv : Conv) (c : ClassNode) (parent_fqdn : Option String)
    (m : FqMap) : FqMap :=
  match c with
  | ClassNode.mk i q ats inn ex en =>
    let fqdn := child_fqdn parent_fqdn (class_name cv q)
    let m1 := dict_insert m fqdn (ClassNode.mk i q ats inn ex en)
    if inn.isEmpty then m1 else set_fq_list cv inn (some fqdn) m1
termination_by structural c

/-- The `for clazz in classes` loop of `set_class_fully_qualified_names`. -/
def set_fq_list (cv : Conv) (l : List ClassNode) (parent_fqdn : Option String)
    (m : FqMap) : FqMap :=
  match l with
  | [] => m
  | c :: rest => set_fq_list cv rest parent_fqdn (set_fq_node cv c parent_fqdn m)
termination_by structural l

end

/-- `set_class_fully_qualified_names(classes, parent_fqdn)`: depth-first walk
of the class graph, recording each class under the dotted join of its
converted ancestor chain. -/
def set_class_fully_qualified_names (cv : Conv) (classes : List ClassNode)
    (parent_fqdn : Option String) (m : FqMap) : FqMap :=
  set_fq_list cv classes parent_fqdn m

/-- The filter state set up by `set_classes`: the class list and the
fully-qualified-name index rebuilt from scratch. -/
structure FilterState where
  classes : List ClassNode
  fqname_map : FqMap

def set_classes (cv : Conv) (classes : List ClassNode) : FilterState :=
  { classes := classes
    fqname_map := set_class_fully_qualified_names cv classes none [] }

/-- The fallback scan of `find_class_by_qname`: first entry whose key ends
with the candidate full path, else with the bare converted name (the source
checks both suffixes per entry before moving to the next entry). -/
def suffix_scan : FqMap → String → String → Option (String × ClassNode)
  | [], _, _ => none
  | (k, c) :: rest, possible, bare =>
    if ends_with k possible then some (k, c)
    else if ends_with k bare then some (k, c)
    else suffix_scan rest possible bare

/-- `find_class_by_qname(qname, parents)`: exact candidate path, else bare
converted name, else the suffix scan, else a resolution error. -/
def find_class_by_qname (cv : Conv) (m : FqMap) (qname : String)
    (parents : List String) : Except String (String × ClassNode) :=
  let cname := class_name cv qname
  let possible_fqdn := join_dot (parents.map (class_name cv) ++ [cname])
  match dict_get m possible_fqdn with
  | some c => .ok (possible_fqdn, c)
  | none =>
    match dict_get m cname with
    | some c => .ok (cname, c)
    | none =>
      match suffix_scan m possible_fqdn cname with
      | some r => .ok r
      | none => .error ("Cant find class for qname " ++ cname)

/-- `find_fqname_by_class`: first index key whose value is the given object
(Python compares with `id`, modelled by `idx`). -/
def find_fqname_by_class : FqMap → ClassNode → Option String
  | [], _ => none
  | p :: rest, c => if p.2.idx = c.idx then some p.1 else find_fqname_by_class rest c

/-- The closed list of primitive type tags used by `is_complex_type` and
`has_complex_types` (verbatim from the source, including its duplicated
"XmlDateTime" entry; bare "date" and "time" do not appear). -/
def primitive_tags : List String :=
  ["bool", "int", "Decimal", "str", "dict", "object", "float", "datetime",
   "XmlDateTime", "XmlDate", "XmlDateTime", "XmlDuration", "XmlTime", "bytes"]

/-- `is_complex_type`: the name is not one of the primitive tags. -/
def is_complex_type (n : String) : Bool :=
  decide (¬ n ∈ primitive_tags)

/-- `has_complex_types`: the set difference names − primitive tags is
non-empty. -/
def has_complex_types (ns : List String) : Bool :=
  ns.any (fun n => decide (¬ n ∈ primitive_tags))

/-- Base `Filters.type_name`: the built-in datatype tag when native, else the
converted alias-or-local-name.  (Python `alias or name`: aliases are never
empty strings.) -/
def type_name (cv : Conv) (t : AttrType) : String :=
  match t.datatype with
  | some d => d
  | none => class_name cv (t.type_alias.getD t.name)

/-- Base `Filters.field_type_name`: quote forward/circular references using
the converted parents chain. -/
def field_type_name (cv : Conv) (t : AttrType) (parents : List String) : String :=
  let name := type_name cv t
  if t.forward && t.circular then
    "\"" ++ join_dot (parents.map (class_name cv)) ++ "\""
  else if t.forward then
    "\"" ++ join_dot (parents.map (class_name cv)) ++ "." ++ name ++ "\""
  else if t.circular then
    "\"" ++ name ++ "\""
  else name

/-- `collections.unique_sequence`: keep the first occurrence of each element
(modelled with the seen-list accumulator the comprehension uses). -/
def unique_sequence_aux (seen : List String) : List String → List String
  | [] => []
  | x :: xs =>
    if x ∈ seen then unique_sequence_aux seen xs
    else x :: unique_sequence_aux (seen ++ [x]) xs

def unique_sequence (l : List String) : List String :=
  unique_sequence_aux [] l

/-- `type_names(attr, parents)`: deduplicated rendered type names. -/
def type_names (cv : Conv) (a : Attr) (parents : List String) : List String :=
  unique_sequence (a.types.map (fun t => field_type_name cv t parents))

/-- `"__".join(l)`. -/
def join_uu : List String → String
  | [] => ""
  | [x] => x
  | x :: y :: xs => x ++ "__" ++ join_uu (y :: xs)

/-- The suffix after the first occurrence of a double underscore, if any
(Python `s.split("__", 1)[-1]` changes the string exactly when this is
`some`). -/
def drop_first_seg : List Char → Option (List Char)
  | [] => none
  | c :: rest =>
    if c = '_' then
      match rest with
      | [] => none
      | c2 :: rest2 => if c2 = '_' then some rest2 else drop_first_seg rest
    else drop_first_seg rest

/-- The `while len(table_name) > 63` loop of `table_name`.  Each productive
iteration removes at least two characters, so the `length + 1` fuel supplied
by `table_name` is never exhausted on a run the source would finish; `none`
marks a loop the source never exits (no double underscore left in an
over-long name, so `split("__", 1)[-1]` returns the string unchanged). -/
def shorten_loop : Nat → List Char → Option (List Char)
  | 0, _ => none
  | fuel + 1, l =>
    if l.length ≤ 63 then some l
    else
      match drop_first_seg l with
      | none => none
      | some rest => shorten_loop fuel rest

/-- `table_name(parents)`: convert each segment with `class_name` then
`field_case`, join with double underscores, and drop leading segments while
the result exceeds the 63-character Postgres identifier limit. -/
def table_name (cv : Conv) (parents : List String) : Option String :=
  let segs := (parents.map (class_name cv)).map cv.field_case
  let tn := join_uu segs
  (shorten_loop (tn.data.length + 1) tn.data).map (fun l => String.mk l)

/-- The shared inner-class rendering used at filters.py lines 157-160 and
292-295: a dotted name is rebuilt through `class_name("", parents=split)`,
a plain one through `class_name`. -/
def dotted_class_name (cv : Conv) (s : String) : String :=
  if contains_char s '.' then class_name_parents cv ("") (split_on_dot s)
  else class_name cv s

/-- The SQLAlchemy `field_type` override: type hint of an attribute, raising
on dict-typed attributes that reach the dict check. -/
def field_type (cv : Conv) (m : FqMap) (a : Attr) (parents : List String) :
    Except String String :=
  let tns := type_names cv a parents
  let iterable := fun (r : String) =>
    if cv.frozen then "Tuple[" ++ r ++ ", ...]" else "List[" ++ r ++ "]"
  let result_base : Except String String :=
    if tns.length > 1 then
      if has_complex_types tns then
        match tns.filter is_complex_type with
        | [c0] =>
          match a.types with
          | [] => .error ("list index out of range")
          | t0 :: _ =>
            match find_class_by_qname cv m t0.qname parents with
            | .error e => .error e
            | .ok (fqname, _) => .ok (if str_contains c0 fqname then c0 else fqname)
        | _ => .ok ("Union[" ++ join_comma tns ++ "]")
      else .ok ("Union[" ++ join_comma tns ++ "]")
    else
      if has_complex_types tns then
        match a.types, tns with
        | t0 :: _, n0 :: _ =>
          match find_class_by_qname cv m t0.qname parents with
          | .error e => .error e
          | .ok (fqname, _) =>
            .ok (if str_contains n0 fqname then join_comma tns else fqname)
        | _, _ => .error ("list index out of range")
      else .ok (join_comma tns)
  match result_base with
  | .error e => .error e
  | .ok result0 =>
    let result1 := if a.is_tokens then iterable result0 else result0
    if a.is_list then .ok (iterable result1)
    else if a.is_tokens then .ok result1
    else if a.is_dict then .error ("Dict is not supported type for DB")
    else if a.is_nillable || (a.default.isNone && (a.is_optional || !cv.kw_only)) then
      .ok ("Optional[" ++ result1 ++ "]")
    else .ok result1

/-- `sql_alchemy_column(name, attr, parent_namespace, parents)`: map a
classified attribute to a column or relationship declaration string. -/
def sql_alchemy_column (cv : Conv) (m : FqMap) (name : Option String) (a : Attr)
    (parent_namespace : Option String) (parents : List String) :
    Except String String :=
  let tns := type_names cv a parents
  match tns with
  | [] => .error ("list index out of range")
  | t0n :: _ =>
    let tns2 := if tns.length > 1 then tns.filter is_complex_type else tns
    let tname := if tns.length > 1 then
        (match tns2 with
         | [c] => c
         | _ => t0n)
      else t0n
    let finish := fun (dt : String) =>
      if a.is_list then Except.ok ("Column(ARRAY(" ++ dt ++ "))")
      else Except.ok ("Column(" ++ dt ++ ")")
    if tname = "dict" ∨ tname = "object" then finish ("XmlJSONB")
    else if tname = "bytes" then finish ("LargeBinary()")
    else if tname = "datetime" ∨ tname = "XmlDateTime" then finish ("SqlXmlDateTime")
    else if tname = "date" ∨ tname = "XmlDate" then finish ("SqlXmlDate")
    else if tname = "time" ∨ tname = "XmlTime" then finish ("SqlXmlTime")
    else if tname = "XmlDuration" then finish ("SqlXmlDuration")
    else if tname = "bool" then finish ("Boolean")
    else if tname = "int" then finish ("Integer")
    else if tname = "Decimal" then finish ("Numeric")
    else if tname = "str" ∨ tns2.length > 1 then finish ("String")
    else if has_complex_types tns2 then
      match a.types with
      | [] => .error ("list index out of range")
      | t0 :: _ =>
        match find_class_by_qname cv m t0.qname parents with
        | .error e => .error e
        | .ok (_, attr_class) =>
          if attr_class.is_enumeration then finish ("StringEnum")
          else if a.is_tokens then .error ("No idea how to handle lists of lists")
          else
            let rcn := dotted_class_name cv tname
            if a.is_list then
              match parents with
              | [] => .error ("list index out of range")
              | p0 :: prest =>
                let parents2 :=
                  (if p0 = "transmissionHeader_1" then "transmissionHeader1" else p0) :: prest
                if name = some "trKioskOrder" then
                  .ok ("relationship(" ++ rcn ++ ", primaryjoin=\x27TrHeaderType.id==TrTickNum.tr_header_type_tr_kiosk_order_id\x27)")
                else if name = some "trRecall" then
                  .ok ("relationship(" ++ rcn ++ ", primaryjoin=\"TrRecall.tr_header_type_tr_recall_id==TrHeaderType.id\")")
                else
                  let base := cv.field_name (parents2.getLastD ("")) (some "") ++ "_" ++
                    cv.field_name a.name parent_namespace
                  .ok ("relationship(" ++ rcn ++ ", back_populates=\"" ++ base ++
                    "\", foreign_keys=[" ++ rcn ++ "." ++ base ++ "_id])")
            else
              match parents.getLast? with
              | none => .error ("list index out of range")
              | some plast =>
                .ok ("relationship(" ++ rcn ++ ", back_populates=\"" ++
                  cv.field_name plast (some "") ++ "_" ++
                  cv.field_name a.name parent_namespace ++ "\", foreign_keys=[" ++
                  cv.field_name a.name parent_namespace ++ "_id.metadata[\"sa\"]])")
    else .error ("Could not find matching SQL Type for XML Type(s)")

/-- `is_many_to_one(attr, parents)`: `some` of the many-to-one verdict for
complex attributes, `none` (Python implicit `None`) otherwise. -/
def is_many_to_one (cv : Conv) (m : FqMap) (a : Attr) (parents : List String) :
    Except String (Option Bool) :=
  let tns := type_names cv a parents
  if has_complex_types tns then
    match a.types with
    | [] => .error ("list index out of range")
    | t0 :: _ =>
      match find_class_by_qname cv m t0.qname parents with
      | .error e => .error e
      | .ok (_, attr_class) =>
        .ok (some (!(a.is_list || a.is_enumeration || attr_class.is_enumeration)))
  else .ok none

/-- The foreign-key column field body produced at filters.py lines 304 and
361 (identical literals in both places). -/
def fk_decl_str (tn : String) : String :=
  "field(default=None, metadata=\x7b\"type\": XmlType.IGNORE, \"sa\": Column(ForeignKey(\"" ++
    tn ++ ".id\", use_alter=True), index=True)\x7d)"

/-- The synthesized foreign-key field of the list branch (line 304). -/
def fk_str (cq an tn : String) : String :=
  cq ++ "_" ++ an ++ "_id: int = " ++ fk_decl_str tn

/-- The synthesized back-reference of the list branch (line 305). -/
def backref_list_str (cq fq an : String) : String :=
  cq ++ "_" ++ an ++ ": Optional[\"" ++ fq ++
    "\"] = field(default=None, metadata=\x7b\"type\": XmlType.IGNORE, \"sa\": relationship(\"" ++
    fq ++ "\", foreign_keys=[" ++ cq ++ "_" ++ an ++
    "_id.metadata[\"sa\"]], back_populates=\"" ++ an ++ "\")\x7d)"

/-- The synthesized back-reference of the scalar branch (line 316). -/
def backref_scalar_str (cq fq an : String) : String :=
  cq ++ "_" ++ an ++ ": Optional[\"" ++ fq ++
    "\"] = field(init=False, default_factory=list, metadata=\x7b\"type\": XmlType.IGNORE, \"sa\": relationship(\"" ++
    fq ++ "\", back_populates=\"" ++ an ++ "\", foreign_keys=\"" ++ fq ++ "." ++ an ++
    "_id\")\x7d)"

/-- The strings `build_backwards_relationships` appends for one referencing
attribute `ra` of `clazz` while processing target `obj` (whose cached fqname
is `obj_fqname`); the empty list when a guard skips the attribute. -/
def backwards_for_attr (cv : Conv) (m : FqMap) (obj_fqname : Option String)
    (clazz : ClassNode) (ra : Attr) : Except String (List String) :=
  let ref_attr_types := type_names cv ra [class_name cv clazz.qname]
  if !(has_complex_types ref_attr_types) then .ok []
  else
    match find_fqname_by_class m clazz with
    | none => .error ("NoneType has no attribute split")
    | some full_class_name =>
      match ra.types with
      | [] => .error ("list index out of range")
      | t0 :: _ =>
        match find_class_by_qname cv m t0.qname (split_on_dot full_class_name) with
        | .error e => .error e
        | .ok (ref_attr_fqname, ref_attr_class) =>
          if obj_fqname = some ref_attr_fqname then
            let class_qname := cv.field_case (class_name cv clazz.qname)
            let fqname := dotted_class_name cv full_class_name
            if ra.is_list then
              match table_name cv (split_on_dot full_class_name) with
              | none => .error ("table_name does not terminate")
              | some tn =>
                .ok [fk_str class_qname (cv.field_case ra.name) tn,
                     backref_list_str class_qname fqname (cv.field_case ra.name)]
            else if !ref_attr_class.is_enumeration then
              .ok [backref_scalar_str class_qname fqname (cv.field_case ra.name)]
            else .ok []
          else .ok []

/-- The inner `for ref_attr in clazz.attrs` loop: concatenation of the
per-attribute emissions, in order. -/
def backwards_for_attrs (cv : Conv) (m : FqMap) (obj_fqname : Option String)
    (clazz : ClassNode) : List Attr → Except String (List String)
  | [] => .ok []
  | ra :: rest =>
    match backwards_for_attr cv m obj_fqname clazz ra with
    | .error e => .error e
    | .ok news =>
      (backwards_for_attrs cv m obj_fqname clazz rest).map (fun l => news ++ l)

mutual

/-- One iteration of the `for clazz in classes` loop of
`build_backwards_relationships`: skip `obj` itself (identity comparison),
append the emissions of every attribute, recurse into inner classes. -/
def build_back_class (cv : Conv) (m : FqMap) (obj : ClassNode) (c : ClassNode)
    (acc : List String) (parents : List String) : Except String (List String) :=
  match c with
  | ClassNode.mk i q ats inn ex en =>
    if i = obj.idx then .ok acc
    else
      match backwards_for_attrs cv m (find_fqname_by_class m obj)
          (ClassNode.mk i q ats inn ex en) ats with
      | .error e => .error e
      | .ok news =>
        let acc1 := acc ++ news
        if inn.isEmpty then .ok acc1
        else build_back_list cv m obj inn acc1 parents
termination_by structural c

/-- The `for clazz in classes` loop of `build_backwards_relationships`. -/
def build_back_list (cv : Conv) (m : FqMap) (obj : ClassNode)
    (l : List ClassNode) (acc : List String) (parents : List String) :
    Except String (List String) :=
  match l with
  | [] => .ok acc
  | c :: rest =>
    match build_back_class cv m obj c acc parents with
    | .error e => .error e
    | .ok acc2 => build_back_list cv m obj rest acc2 parents
termination_by structural l

end

/-- `build_backwards_relationships(obj, classes, relationships, parents)`:
walk every class of the graph (skipping `obj` itself, compared by identity),
appending the synthesized fields for each attribute referencing `obj`, and
recursing into inner classes.  The `parents` argument is carried but unused,
as in the source. -/
def build_backwards_relationships (cv : Conv) (m : FqMap) (obj : ClassNode)
    (classes : List ClassNode) (acc : List String) (parents : List String) :
    Except String (List String) :=
  build_back_list cv m obj classes acc parents

/-- `relationship_backrefs(obj, parents)`: run the backwards walk over the
registered classes starting from a freshly created list. -/
def relationship_backrefs (cv : Conv) (st : FilterState) (obj : ClassNode)
    (parents : List String) : Except String (List String) :=
  build_backwards_relationships cv st.fqname_map obj st.classes [] parents

/-- The `while has_extensions` loop of `relationship_definition`: follow the
extension chain down to the base class.  `none` marks a cyclic chain the
source would loop on forever (the fuel, one more than the index size, is
never exhausted on an acyclic chain of indexed classes). -/
def base_table_qname (cv : Conv) (m : FqMap) : Nat → String → Option String
  | 0, _ => none
  | fuel + 1, tq =>
    match find_class_by_qname cv m tq [] with
    | .error _ => some tq
    | .ok (_, extension_class) =>
      match extension_class.extensions with
      | [] => some tq
      | e :: _ => base_table_qname cv m fuel (class_name cv e.type.qname)

/-- `relationship_definition(attr, ns_map, parent_namespace, parents)`: the
foreign-key column field body for a many-to-one attribute, pointing at the
resolved target table (or the root of its extension chain). -/
def relationship_definition (cv : Conv) (m : FqMap) (a : Attr)
    (parents : List String) : Except String String :=
  match a.types with
  | [] => .error ("list index out of range")
  | t0 :: _ =>
    match find_class_by_qname cv m t0.qname parents with
    | .error e => .error e
    | .ok (fqname, attr_class) =>
      match attr_class.extensions with
      | ext0 :: exrest =>
        let table_qname := class_name cv ext0.type.qname
        if exrest ≠ [] then
          .error ("More than one inherited class is unsupported for SQLAlchemy")
        else
          match base_table_qname cv m (m.length + 1) table_qname with
          | none => .error ("extension chain does not terminate")
          | some tq =>
            match table_name cv [tq] with
            | none => .error ("table_name does not terminate")
            | some tn => .ok (fk_decl_str tn)
      | [] =>
        match table_name cv (split_on_dot fqname) with
        | none => .error ("table_name does not terminate")
        | some tn => .ok (fk_decl_str tn)

/-- Modelled from the spec: the rendering templates (not under src/) attach
to each many-to-one complex attribute a foreign-key field named after the
attribute with the `_id` suffix, whose declaration body is produced by
`relationship_definition` (the synthesized back-references of
`build_backwards_relationships` link to exactly this field through
`"<class>.<attr>_id"`). -/
def forward_foreign_key_field (cv : Conv) (m : FqMap) (a : Attr)
    (parents : List String) : Except String (String × String) :=
  (relationship_definition cv m a parents).map
    (fun d => (cv.field_case a.name ++ "_id", d))

/-! Concrete fixtures used by witnesses and counterexamples: a conventions
instance whose configured case converters are the identity (a legitimate
configuration; the claims quantify over the conventions), and small class
graphs. -/

def conv0 : Conv :=
  { class_aliases := []
    class_case := fun s => s
    field_case := fun s => s
    field_name := fun n _ => n
    frozen := false
    kw_only := false }

/-- A complex (class-valued) type reference. -/
def tref (q : String) : AttrType :=
  { qname := q, name := q, type_alias := none, datatype := none,
    forward := false, circular := false }

/-- A native type reference carrying a datatype tag. -/
def dref (d : String) : AttrType :=
  { qname := d, name := d, type_alias := none, datatype := some d,
    forward := false, circular := false }

/-- A scalar attribute with the given type references and no flags set. -/
def scalar_attr (n : String) (ts : List AttrType) : Attr :=
  { name := n, types := ts, is_list := false, is_tokens := false,
    is_dict := false, is_optional := false, is_nillable := false,
    is_enumeration := false, default := none }

/-- A list-valued attribute with the given type references. -/
def list_attr (n : String) (ts : List AttrType) : Attr :=
  { name := n, types := ts, is_list := true, is_tokens := false,
    is_dict := false, is_optional := false, is_nillable := false,
    is_enumeration := false, default := none }

/-- A leaf class with no attributes. -/
def leaf_class (i : Nat) (q : String) : ClassNode :=
  ClassNode.mk i q [] [] [] false

/-- A leaf enumeration class. -/
def leaf_enum (i : Nat) (q : String) : ClassNode :=
  ClassNode.mk i q [] [] [] true

def y_class : ClassNode := leaf_class 1 "Y"

def x_scalar_y : ClassNode :=
  ClassNode.mk 0 "X" [scalar_attr ("y") [tref ("Y")]] [] [] false

/-- X with a scalar complex attribute of type Y, plus Y. -/
def scalar_state : FilterState := set_classes conv0 [x_scalar_y, y_class]

def x_list_y : ClassNode :=
  ClassNode.mk 0 "X" [list_attr ("ys") [tref ("Y")]] [] [] false

/-- X with a list-valued complex attribute of type Y, plus Y. -/
def list_state : FilterState := set_classes conv0 [x_list_y, y_class]

/-- A dict-typed scalar attribute (no other cardinality flags). -/
def dict_scalar_attr : Attr :=
  { name := "a", types := [dref ("str")], is_list := false, is_tokens := false,
    is_dict := true, is_optional := false, is_nillable := false,
    is_enumeration := false, default := none }

/-- A dict-typed attribute that is also list-valued. -/
def dict_list_attr : Attr :=
  { name := "a", types := [dref ("str")], is_list := true, is_tokens := false,
    is_dict := true, is_optional := false, is_nillable := false,
    is_enumeration := false, default := none }

def foo_class : ClassNode := leaf_class 5 "Foo"

def foo_state : FilterState := set_classes conv0 [foo_class]

def foo_enum_state : FilterState := set_classes conv0 [leaf_enum 5 "Foo"]

def color_enum : ClassNode := leaf_enum 1 "Color"

def x_colors : ClassNode :=
  ClassNode.mk 0 "X" [list_attr ("colors") [tref ("Color")]] [] [] false

def enum_list_state : FilterState := set_classes conv0 [x_colors, color_enum]

/-! Proof-vehicle definitions: the index construction viewed as a fold of
dict inserts over the depth-first (fqdn, node) pair sequence. -/

mutual

/-- The (fqdn, node) pairs the index walk records for one class, in
insertion order. -/
def dfs_pairs_node (cv : Conv) (c : ClassNode) (parent_fqdn : Option String) :
    List (String × ClassNode) :=
  match c with
  | ClassNode.mk i q ats inn ex en =>
    let fqdn := child_fqdn parent_fqdn (class_name cv q)
    (fqdn, ClassNode.mk i q ats inn ex en) ::
      (if inn.isEmpty then [] else dfs_pairs_list cv inn (some fqdn))
termination_by structural c

/-- The (fqdn, node) pairs the index walk records for a class list. -/
def dfs_pairs_list (cv : Conv) (l : List ClassNode) (parent_fqdn : Option String) :
    List (String × ClassNode) :=
  match l with
  | [] => []
  | c :: rest => dfs_pairs_node cv c parent_fqdn ++ dfs_pairs_list cv rest parent_fqdn
termination_by structural l

end

mutual

/-- Which class the backwards walk visits inside the subtree of `c` at the
given index path (`[]` denotes `c` itself); `none` when the path leaves the
tree or runs through the skipped target `obj`. -/
def visits_node (obj : ClassNode) (c : ClassNode) (path : List Nat) :
    Option ClassNode :=
  match c with
  | ClassNode.mk i q ats inn ex en =>
    if i = obj.idx then none
    else
      match path with
      | [] => some (ClassNode.mk i q ats inn ex en)
      | _ :: _ => visits_list obj inn path
termination_by structural c

/-- Which class the backwards walk visits in a class list at the given index
path: the head index selects the list entry, the tail descends into it. -/
def visits_list (obj : ClassNode) : List ClassNode → List Nat → Option ClassNode
  | [], _ => none
  | _ :: _, [] => none
  | c :: _, 0 :: p => visits_node obj c p
  | _ :: rest, (i + 1) :: p => visits_list obj rest (i :: p)
termination_by structural l => l

end

/-- Fold a pair sequence into a dict by repeated insertion. -/
def insert_fold (ps : List (String × ClassNode)) (m : FqMap) : FqMap :=
  ps.foldl (fun acc p => dict_insert acc p.1 p.2) m

/-- The value of the LAST pair carrying the given key, if any (what repeated
dict insertion leaves at that key). -/
def last_val : List (String × ClassNode) → String → Option ClassNode
  | [], _ => none
  | p :: rest, k =>
    match last_val rest k with
    | some v => some v
    | none => if p.1 = k then some p.2 else none

/-- Do all pairs sharing a key carry the same class identity?  (The
injectivity of the fqdn assignment over the reachable graph.) -/
def keys_determine : List (String × ClassNode) → Bool
  | [] => true
  | p :: rest =>
    rest.all (fun q => !(p.1 == q.1) || (p.2.idx == q.2.idx)) && keys_determine rest

/-! Helper lemmas. -/

/-- A name classified complex differs from every tag of the primitive set. -/
theorem complex_ne_tags {n : String} (h : is_complex_type n = true) :
    n ≠ "bool" ∧ n ≠ "int" ∧ n ≠ "Decimal" ∧ n ≠ "str" ∧ n ≠ "dict" ∧
    n ≠ "object" ∧ n ≠ "float" ∧ n ≠ "datetime" ∧ n ≠ "XmlDateTime" ∧
    n ≠ "XmlDate" ∧ n ≠ "XmlDuration" ∧ n ≠ "XmlTime" ∧ n ≠ "bytes" := by
  simp [is_complex_type, primitive_tags] at h
  tauto

/-- On a one-element list the set-difference test degenerates to the single
membership test. -/
theorem has_complex_singleton (c : String) :
    has_complex_types [c] = is_complex_type c := by
  simp [has_complex_types, is_complex_type]

/-! Claim C8. -/

/-- Claim C8 (amended): `is_complex_type(name)` returns true iff `name` lies
outside the primitive set the code actually fixes: bool, int, Decimal, str,
dict, object, float, datetime, XmlDateTime, XmlDate, XmlDuration, XmlTime
and bytes.  The bare "date" and "time" tags are NOT members of that set, so
they are classified as complex. -/
theorem is_complex_type_iff_not_primitive (n : String) :
    is_complex_type n = true ↔
      (n ≠ "bool" ∧ n ≠ "int" ∧ n ≠ "Decimal" ∧ n ≠ "str" ∧ n ≠ "dict" ∧
       n ≠ "object" ∧ n ≠ "float" ∧ n ≠ "datetime" ∧ n ≠ "XmlDateTime" ∧
       n ≠ "XmlDate" ∧ n ≠ "XmlDuration" ∧ n ≠ "XmlTime" ∧ n ≠ "bytes") := by
  simp [is_complex_type, primitive_tags]
  tauto

/-- Claim C8 counterexample: the frozen claim counts the bare date and time
tags among the primitives, but `is_complex_type` classifies both as
complex. -/
theorem is_complex_type_date_time_complex :
    is_complex_type ("date") = true ∧ is_complex_type ("time") = true := by
  decide

/-! Claim C5. -/

/-- Claim C5 (amended): an attribute whose resolved type names form a union
of two or more complex names is not rejected: `sql_alchemy_column` maps it to
a plain string column, `Column(String)` (or `Column(ARRAY(String))` when
list-valued), and raises no Configuration error.  The hypotheses exclude the
bare "date"/"time" tags, which the code classifies complex yet routes through
the temporal branches. -/
theorem sql_alchemy_column_union_of_complex (cv : Conv) (m : FqMap)
    (name : Option String) (a : Attr) (pns : Option String) (ps : List String)
    (hlen : 2 ≤ (type_names cv a ps).length)
    (hall : ∀ n ∈ type_names cv a ps,
      is_complex_type n = true ∧ n ≠ "date" ∧ n ≠ "time") :
    sql_alchemy_column cv m name a pns ps =
      .ok (if a.is_list then "Column(ARRAY(String))" else "Column(String)") := by
  rcases h : type_names cv a ps with _ | ⟨t0, _ | ⟨t1, l2⟩⟩
  · rw [h] at hlen; simp at hlen
  · rw [h] at hlen; simp at hlen
  · rw [h] at hall
    have hfilt : (t0 :: t1 :: l2).filter is_complex_type = t0 :: t1 :: l2 :=
      List.filter_eq_self.mpr (fun n hn => (hall n hn).1)
    obtain ⟨hc0, hd0, ht0⟩ := hall t0 (by simp)
    obtain ⟨n1, n2, n3, n4, n5, n6, n7, n8, n9, n10, n11, n12, n13⟩ :=
      complex_ne_tags hc0
    have h21 : (t0 :: t1 :: l2).length > 1 := by simp
    unfold sql_alchemy_column
    rw [h]
    simp only [h21, if_pos, hfilt]
    simp [n1, n2, n3, n4, n5, n6, n7, n8, n9, n10, n11, n12, n13, hd0, ht0, h21]
    cases a.is_list <;> simp

/-- Claim C5 counterexample: a union of the two complex types Foo and Bar
yields `Column(String)` instead of the Configuration error the claim
demands. -/
theorem sql_alchemy_column_two_complex_ok :
    sql_alchemy_column conv0 [] none (scalar_attr ("a") [tref ("Foo"), tref ("Bar")])
      none [] = .ok ("Column(String)") := by rfl

/-- Claim C5 witness for the amended theorem. -/
theorem sql_alchemy_column_union_of_complex_witness :
    sql_alchemy_column conv0 [] none (scalar_attr ("a") [tref ("Foo"), tref ("Bar")])
      none [] =
      .ok (if (scalar_attr ("a") [tref ("Foo"), tref ("Bar")]).is_list then
        "Column(ARRAY(String))" else "Column(String)") :=
  sql_alchemy_column_union_of_complex conv0 [] none
    (scalar_attr ("a") [tref ("Foo"), tref ("Bar")]) none [] (by decide) (by decide)

/-! Claim C6. -/

/-- Claim C6 (amended): a union mixing primitive names with exactly one
complex name is not degraded to a string column: the filtered complex name
wins, the class it denotes is resolved, and (in the enumeration case proved
here) the attribute maps to `Column(StringEnum)` / `Column(ARRAY(StringEnum))`;
non-enumeration targets produce a relationship declaration instead.  A string
column is produced only when two or more complex names survive filtering. -/
theorem sql_alchemy_column_mixed_union (cv : Conv) (m : FqMap)
    (name : Option String) (a : Attr) (pns : Option String) (ps : List String)
    (c fq : String) (cls : ClassNode) (t0 : AttrType) (ts : List AttrType)
    (hlen : 2 ≤ (type_names cv a ps).length)
    (hfilter : (type_names cv a ps).filter is_complex_type = [c])
    (hdate : c ≠ "date") (htime : c ≠ "time")
    (hts : a.types = t0 :: ts)
    (hres : find_class_by_qname cv m t0.qname ps = .ok (fq, cls))
    (henum : cls.is_enumeration = true) :
    sql_alchemy_column cv m name a pns ps =
      .ok (if a.is_list then "Column(ARRAY(StringEnum))" else "Column(StringEnum)") := by
  rcases h : type_names cv a ps with _ | ⟨t0n, _ | ⟨t1n, l2⟩⟩
  · rw [h] at hlen; simp at hlen
  · rw [h] at hlen; simp at hlen
  · rw [h] at hfilter
    have hc : is_complex_type c = true := by
      have : c ∈ (t0n :: t1n :: l2).filter is_complex_type := by
        rw [hfilter]; simp
      exact (List.mem_filter.mp this).2
    obtain ⟨n1, n2, n3, n4, n5, n6, n7, n8, n9, n10, n11, n12, n13⟩ :=
      complex_ne_tags hc
    have h21 : (t0n :: t1n :: l2).length > 1 := by simp
    unfold sql_alchemy_column
    rw [h]
    simp only [h21, if_pos, hfilter]
    simp [n1, n2, n3, n4, n5, n6, n7, n8, n9, n10, n11, n12, n13, hdate, htime,
      has_complex_singleton, hc, hts, hres, henum]
    cases a.is_list <;> simp

/-- Claim C6 counterexample: the union Foo | int (one complex plus one
primitive name, Foo a registered non-enumeration class) does not produce a
string column: the attribute is mapped to a relationship declaration. -/
theorem sql_alchemy_column_mixed_union_relationship :
    sql_alchemy_column conv0 foo_state.fqname_map none
        (scalar_attr ("foo") [tref ("Foo"), dref ("int")]) none ["X"] =
      .ok ("relationship(Foo, back_populates=\"X_foo\", foreign_keys=[foo_id.metadata[\"sa\"]])") ∧
    ("relationship(Foo, back_populates=\"X_foo\", foreign_keys=[foo_id.metadata[\"sa\"]])" : String) ≠
      "Column(String)" := by
  constructor
  · rfl
  · decide

/-- Claim C6 witness for the amended theorem (enumeration target). -/
theorem sql_alchemy_column_mixed_union_witness :
    sql_alchemy_column conv0 foo_enum_state.fqname_map none
        (scalar_attr ("foo") [tref ("Foo"), dref ("int")]) none [] =
      .ok (if (scalar_attr ("foo") [tref ("Foo"), dref ("int")]).is_list then
        "Column(ARRAY(StringEnum))" else "Column(StringEnum)") :=
  sql_alchemy_column_mixed_union conv0 foo_enum_state.fqname_map none
    (scalar_attr ("foo") [tref ("Foo"), dref ("int")]) none [] ("Foo") ("Foo")
    (leaf_enum 5 "Foo") (tref ("Foo")) [dref ("int")]
    (by decide) (by decide) (by decide) (by decide) (by rfl) (by rfl) (by rfl)

/-! Claim C9. -/

/-- Claim C9 (amended): a dict-typed attribute raises the Configuration
error, but only when neither `is_list` nor `is_tokens` is set: those two
flags return a collection type hint before the dict check is reached. -/
theorem field_type_dict_raises (cv : Conv) (m : FqMap) (a : Attr)
    (ps : List String)
    (hd : a.is_dict = true) (hl : a.is_list = false) (ht : a.is_tokens = false)
    (hc : has_complex_types (type_names cv a ps) = false) :
    field_type cv m a ps = .error ("Dict is not supported type for DB") := by
  unfold field_type
  split <;> simp_all
  all_goals (split <;> simp_all)
  all_goals (rename_i heq; split at heq <;> simp_all)

/-- Claim C9 counterexample: a dict-typed attribute that is also list-valued
does not raise; `field_type` returns the list type hint. -/
theorem field_type_dict_list_ok :
    field_type conv0 [] dict_list_attr [] = .ok ("List[str]") := by rfl

/-- Claim C9 witness for the amended theorem. -/
theorem field_type_dict_raises_witness :
    field_type conv0 [] dict_scalar_attr [] =
      .error ("Dict is not supported type for DB") :=
  field_type_dict_raises conv0 [] dict_scalar_attr []
    (by rfl) (by rfl) (by rfl) (by decide)

/-! Dict-fold lemmas for the index. -/

/-- Looking up the key just inserted yields the inserted value. -/
theorem dict_get_insert_self :
    ∀ (m : FqMap) (k : String) (v : ClassNode),
      dict_get (dict_insert m k v) k = some v := by
  intro m k v
  induction m with
  | nil => simp [dict_insert, dict_get]
  | cons p rest ih =>
    by_cases h : p.1 = k
    · simp [dict_insert, dict_get, h]
    · simp [dict_insert, dict_get, h, ih]

/-- Insertion leaves other keys untouched. -/
theorem dict_get_insert_ne :
    ∀ (m : FqMap) (k : String) (v : ClassNode) (k' : String), k' ≠ k →
      dict_get (dict_insert m k v) k' = dict_get m k' := by
  intro m k v k' hne
  induction m with
  | nil => simp [dict_insert, dict_get, Ne.symm hne]
  | cons p rest ih =>
    by_cases h : p.1 = k
    · have hp : p.1 ≠ k' := by rw [h]; exact Ne.symm hne
      simp [dict_insert, dict_get, h, hp, Ne.symm hne]
    · by_cases h2 : p.1 = k'
      · simp [dict_insert, dict_get, h, h2, hne]
      · simp [dict_insert, dict_get, h, h2, ih]

/-- A fold of insertions realises last-one-wins lookup semantics. -/
theorem dict_get_insert_fold :
    ∀ (ps : List (String × ClassNode)) (m : FqMap) (k : String),
      dict_get (insert_fold ps m) k =
        (match last_val ps k with
         | some v => some v
         | none => dict_get m k) := by
  intro ps
  induction ps with
  | nil => intro m k; rfl
  | cons p rest ih =>
    intro m k
    show dict_get (insert_fold rest (dict_insert m p.1 p.2)) k = _
    rw [ih]
    cases hlv : last_val rest k with
    | some v => simp [last_val, hlv]
    | none =>
      by_cases h : p.1 = k
      · subst h
        simp [last_val, hlv, dict_get_insert_self]
      · simp [last_val, hlv, h, dict_get_insert_ne m p.1 p.2 k (fun hh => h hh.symm)]

/-- The last value at a key is one of the recorded pairs. -/
theorem last_val_mem :
    ∀ (ps : List (String × ClassNode)) (k : String) (v : ClassNode),
      last_val ps k = some v → (k, v) ∈ ps := by
  intro ps
  induction ps with
  | nil => intro k v h; simp [last_val] at h
  | cons p rest ih =>
    intro k v h
    cases hlv : last_val rest k with
    | some v2 =>
      rw [last_val, hlv] at h
      injection h with h'
      exact List.mem_cons_of_mem _ (h' ▸ ih k v2 hlv)
    | none =>
      rw [last_val, hlv] at h
      by_cases hk : p.1 = k
      · rw [if_pos hk] at h
        injection h with h'
        subst h'
        subst hk
        exact List.mem_cons_self _ _
      · rw [if_neg hk] at h
        cases h

/-- Every recorded key has a last value. -/
theorem mem_last_val :
    ∀ (ps : List (String × ClassNode)) (k : String) (v : ClassNode),
      (k, v) ∈ ps → ∃ v', last_val ps k = some v' := by
  intro ps
  induction ps with
  | nil => intro k v h; cases h
  | cons p rest ih =>
    intro k v h
    cases hlv : last_val rest k with
    | some v2 => exact ⟨v2, by rw [last_val, hlv]⟩
    | none =>
      rcases List.mem_cons.mp h with h | h
      · refine ⟨p.2, ?_⟩
        rw [last_val, hlv, if_pos (by rw [← h])]
      · obtain ⟨v', hv'⟩ := ih k v h
        rw [hv'] at hlv
        cases hlv

/-- Soundness of the boolean injectivity check: pairs with equal keys carry
equal identities. -/
theorem keys_determine_sound :
    ∀ (ps : List (String × ClassNode)), keys_determine ps = true →
      ∀ (k : String) (v v' : ClassNode), (k, v) ∈ ps → (k, v') ∈ ps →
        v.idx = v'.idx := by
  intro ps
  induction ps with
  | nil => intro _ k v v' h; cases h
  | cons p rest ih =>
    intro h k v v' h1 h2
    rw [keys_determine, Bool.and_eq_true, List.all_eq_true] at h
    obtain ⟨hall, hrest⟩ := h
    rcases List.mem_cons.mp h1 with h1 | h1 <;> rcases List.mem_cons.mp h2 with h2 | h2
    · rw [← h1] at h2
      injection h2 with _ h2'
      rw [h2']
    · have := hall (k, v') h2
      rw [← h1] at this
      simpa using this
    · have := hall (k, v) h1
      rw [← h2] at this
      have := (by simpa using this : v'.idx = v.idx)
      exact this.symm
    · exact ih hrest k v v' h1 h2

/-- The index construction equals the fold of the depth-first pair sequence
(combined statement for the mutual walk, by strong induction on size). -/
theorem set_fq_eq_fold_aux (cv : Conv) :
    ∀ n : Nat,
      (∀ c : ClassNode, sizeOf c ≤ n → ∀ pfq m,
        set_fq_node cv c pfq m = insert_fold (dfs_pairs_node cv c pfq) m) ∧
      (∀ l : List ClassNode, sizeOf l ≤ n → ∀ pfq m,
        set_fq_list cv l pfq m = insert_fold (dfs_pairs_list cv l pfq) m) := by
  intro n
  induction n with
  | zero =>
    constructor
    · intro c hc
      cases c with
      | mk i q ats inn ex en =>
        simp [ClassNode.mk.sizeOf_spec] at hc
    · intro l hl pfq m
      cases l with
      | nil => rfl
      | cons c rest =>
        simp [List.cons.sizeOf_spec] at hl
  | succ n ih =>
    constructor
    · intro c hc pfq m
      cases c with
      | mk i q ats inn ex en =>
        have hsz : sizeOf inn ≤ n := by
          simp [ClassNode.mk.sizeOf_spec] at hc
          omega
        show set_fq_node cv (ClassNode.mk i q ats inn ex en) pfq m = _
        rw [set_fq_node, dfs_pairs_node]
        by_cases hinn : inn.isEmpty
        · simp [hinn, insert_fold]
        · simp only [hinn, if_false, Bool.false_eq_true]
          rw [ih.2 inn hsz]
          simp [insert_fold]
    · intro l hl pfq m
      cases l with
      | nil => rfl
      | cons c rest =>
        have hszc : sizeOf c ≤ n := by
          simp [List.cons.sizeOf_spec] at hl
          omega
        have hszr : sizeOf rest ≤ n := by
          simp [List.cons.sizeOf_spec] at hl
          omega
        show set_fq_list cv (c :: rest) pfq m = _
        rw [set_fq_list, dfs_pairs_list]
        rw [ih.1 c hszc, ih.2 rest hszr]
        simp [insert_fold, List.foldl_append]

/-- The index is the last-wins fold of the depth-first pair sequence. -/
theorem set_class_fq_eq_fold (cv : Conv) (l : List ClassNode)
    (pfq : Option String) (m : FqMap) :
    set_class_fully_qualified_names cv l pfq m =
      insert_fold (dfs_pairs_list cv l pfq) m :=
  (set_fq_eq_fold_aux cv (sizeOf l)).2 l (le_refl _) pfq m

/-- The per-entry two-suffix scan is the first match of the disjunction of
the two suffix tests. -/
theorem suffix_scan_eq_find :
    ∀ (m : FqMap) (possible bare : String),
      suffix_scan m possible bare =
        m.find? (fun p => ends_with p.1 possible || ends_with p.1 bare) := by
  intro m possible bare
  induction m with
  | nil => rfl
  | cons p rest ih =>
    obtain ⟨k, c⟩ := p
    by_cases h1 : ends_with k possible <;> by_cases h2 : ends_with k bare <;>
      simp [suffix_scan, List.find?, h1, h2, ih]

/-! Claim C1. -/

/-- Claim C1 (amended): provided the fqdn assignment is injective over the
reachable graph (no two depth-first entries share a key while denoting
different objects — the FQNameIndex invariant of the spec), resolving any
reachable class's own qname with its correct parent chain (any chain whose
candidate path equals the class's recorded fqdn) returns that very class.
Without the injectivity proviso the claim fails: a later class with the same
computed fqdn overwrites the earlier one in the index (see the
counterexample). -/
theorem find_class_by_qname_self (cv : Conv) (roots : List ClassNode)
    (c : ClassNode) (parents : List String) (k : String) (i : Nat)
    (hpair : (dfs_pairs_list cv roots none)[i]? = some (k, c))
    (hkey : join_dot (parents.map (class_name cv) ++ [class_name cv c.qname]) = k)
    (hinj : keys_determine (dfs_pairs_list cv roots none) = true) :
    ∃ c', find_class_by_qname cv (set_classes cv roots).fqname_map c.qname parents =
      .ok (k, c') ∧ c'.idx = c.idx := by
  have hmem : (k, c) ∈ dfs_pairs_list cv roots none := List.getElem?_mem hpair
  obtain ⟨v', hv'⟩ := mem_last_val _ k c hmem
  have hvmem : (k, v') ∈ dfs_pairs_list cv roots none := last_val_mem _ k v' hv'
  have hidx : v'.idx = c.idx :=
    keys_determine_sound _ hinj k v' c hvmem hmem
  have hget : dict_get (set_classes cv roots).fqname_map k = some v' := by
    show dict_get (set_class_fully_qualified_names cv roots none []) k = some v'
    rw [set_class_fq_eq_fold, dict_get_insert_fold, hv']
  refine ⟨v', ?_, hidx⟩
  unfold find_class_by_qname
  simp only [hkey, hget]

/-- Claim C1 counterexample: two distinct top-level classes whose qnames
differ only in the stripped namespace prefix receive the same fqdn "Item";
the second insertion overwrites the first, and resolving the FIRST class's
own qname (with its correct, empty, parent chain) returns the SECOND class
(identity 1, not 0). -/
theorem find_class_by_qname_shadowed :
    find_class_by_qname conv0
        (set_classes conv0
          [ClassNode.mk 0 ("\x7bns1\x7dItem") [] [] [] false,
           ClassNode.mk 1 ("\x7bns2\x7dItem") [] [] [] false]).fqname_map
        ("\x7bns1\x7dItem") [] =
      .ok (("Item"), ClassNode.mk 1 ("\x7bns2\x7dItem") [] [] [] false) := by rfl

/-- Claim C1 witness for the amended theorem: two classes named Item nested
under A and B; resolving the qname of A's Item with parents ["A"] returns
exactly that inner class. -/
theorem find_class_by_qname_self_witness :
    ∃ c', find_class_by_qname conv0
        (set_classes conv0
          [ClassNode.mk 0 "A" [] [leaf_class 1 "Item"] [] false,
           ClassNode.mk 2 "B" [] [leaf_class 3 "Item"] [] false]).fqname_map
        (leaf_class 1 "Item").qname ["A"] =
      .ok (("A.Item"), c') ∧ c'.idx = (leaf_class 1 "Item").idx :=
  find_class_by_qname_self conv0
    [ClassNode.mk 0 "A" [] [leaf_class 1 "Item"] [] false,
     ClassNode.mk 2 "B" [] [leaf_class 3 "Item"] [] false]
    (leaf_class 1 "Item") ["A"] ("A.Item") 1 (by rfl) (by rfl) (by rfl)

/-! Claim C2. -/

/-- Claim C2 (amended): when neither the exact candidate path nor the bare
converted name is an index key, `find_class_by_qname` returns the FIRST index
entry, in insertion order, whose key ends with the candidate full path OR
with the bare short name.  The full-path test precedes the bare-name test
only within one entry; it is not preferred globally, so an earlier entry
matching just the bare name wins over a later entry matching the full
path. -/
theorem find_class_by_qname_fallback (cv : Conv) (m : FqMap) (qname : String)
    (parents : List String) (e : String × ClassNode)
    (h1 : dict_get m
      (join_dot (parents.map (class_name cv) ++ [class_name cv qname])) = none)
    (h2 : dict_get m (class_name cv qname) = none)
    (h3 : m.find? (fun p =>
      ends_with p.1 (join_dot (parents.map (class_name cv) ++ [class_name cv qname])) ||
      ends_with p.1 (class_name cv qname)) = some e) :
    find_class_by_qname cv m qname parents = .ok e := by
  unfold find_class_by_qname
  rw [← suffix_scan_eq_find] at h3
  simp only [h1, h2, h3]

/-- Claim C2 counterexample: with index keys (in insertion order) X, X.C, Q,
Q.P, Q.P.C, resolving C with parents ["P"] has no exact and no bare match;
a full-path suffix match ("Q.P.C" ends with "P.C") exists in the index, but
the scan returns the earlier entry "X.C", which matches only the bare short
name — falsifying the claimed global preference for full-path suffix
matches. -/
theorem find_class_by_qname_fallback_order :
    find_class_by_qname conv0
        (set_classes conv0
          [ClassNode.mk 0 "X" [] [leaf_class 1 "C"] [] false,
           ClassNode.mk 2 "Q" [] [ClassNode.mk 3 "P" [] [leaf_class 4 "C"] [] false] [] false]).fqname_map
        ("C") ["P"] =
      .ok (("X.C"), leaf_class 1 "C") ∧
    dict_get (set_classes conv0
          [ClassNode.mk 0 "X" [] [leaf_class 1 "C"] [] false,
           ClassNode.mk 2 "Q" [] [ClassNode.mk 3 "P" [] [leaf_class 4 "C"] [] false] [] false]).fqname_map
        ("Q.P.C") = some (leaf_class 4 "C") ∧
    ends_with ("Q.P.C") ("P.C") = true ∧
    ends_with ("X.C") ("P.C") = false := by
  exact ⟨by rfl, by rfl, by rfl, by rfl⟩

/-- Claim C2 witness for the amended theorem. -/
theorem find_class_by_qname_fallback_witness :
    find_class_by_qname conv0
        (set_classes conv0
          [ClassNode.mk 0 "X" [] [leaf_class 1 "C"] [] false,
           ClassNode.mk 2 "Q" [] [ClassNode.mk 3 "P" [] [leaf_class 4 "C"] [] false] [] false]).fqname_map
        ("C") ["P"] = .ok (("X.C"), leaf_class 1 "C") :=
  find_class_by_qname_fallback conv0
    (set_classes conv0
      [ClassNode.mk 0 "X" [] [leaf_class 1 "C"] [] false,
       ClassNode.mk 2 "Q" [] [ClassNode.mk 3 "P" [] [leaf_class 4 "C"] [] false] [] false]).fqname_map
    ("C") ["P"] (("X.C"), leaf_class 1 "C") (by rfl) (by rfl) (by rfl)

/-! Backwards-walk lemmas (Claims C3 and C4). -/

/-- From a successful run of the attribute loop, every attribute's own
emission succeeds and is contained in the loop's output. -/
theorem backwards_for_attrs_each (cv : Conv) (m : FqMap) (ofq : Option String)
    (clazz : ClassNode) :
    ∀ (attrs : List Attr) (news : List String) (ra : Attr),
      backwards_for_attrs cv m ofq clazz attrs = .ok news → ra ∈ attrs →
      ∃ nra, backwards_for_attr cv m ofq clazz ra = .ok nra ∧
        ∀ s ∈ nra, s ∈ news := by
  intro attrs
  induction attrs with
  | nil => intro news ra _ hmem; cases hmem
  | cons b rest ih =>
    intro news ra hrun hmem
    rw [backwards_for_attrs] at hrun
    cases hb : backwards_for_attr cv m ofq clazz b with
    | error e => rw [hb] at hrun; cases hrun
    | ok n0 =>
      rw [hb] at hrun
      cases hrest : backwards_for_attrs cv m ofq clazz rest with
      | error e => rw [hrest] at hrun; cases hrun
      | ok nrest =>
        rw [hrest] at hrun
        have hnews : news = n0 ++ nrest := by
          have := hrun
          simp [Except.map] at this
          exact this.symm
        rcases List.mem_cons.mp hmem with h | h
        · subst h
          exact ⟨n0, hb, fun s hs => by
            rw [hnews]; exact List.mem_append_left _ hs⟩
        · obtain ⟨nra, hnra, hsub⟩ := ih nrest ra hrest h
          exact ⟨nra, hnra, fun s hs => by
            rw [hnews]; exact List.mem_append_right _ (hsub s hs)⟩

/-- The backwards walk only appends: its result on any accumulator is the
fresh run's result appended to that accumulator (combined statement for the
mutual walk, by strong induction on size). -/
theorem build_back_acc_aux (cv : Conv) (m : FqMap) (obj : ClassNode)
    (ps : List String) :
    ∀ n : Nat,
      (∀ c : ClassNode, sizeOf c ≤ n → ∀ acc,
        build_back_class cv m obj c acc ps =
          (build_back_class cv m obj c [] ps).map (fun t => acc ++ t)) ∧
      (∀ l : List ClassNode, sizeOf l ≤ n → ∀ acc,
        build_back_list cv m obj l acc ps =
          (build_back_list cv m obj l [] ps).map (fun t => acc ++ t)) := by
  intro n
  induction n with
  | zero =>
    constructor
    · intro c hc
      cases c with
      | mk i q ats inn ex en => simp [ClassNode.mk.sizeOf_spec] at hc
    · intro l hl acc
      cases l with
      | nil => simp [build_back_list, Except.map]
      | cons c rest => simp [List.cons.sizeOf_spec] at hl
  | succ n ih =>
    constructor
    · intro c hc acc
      cases c with
      | mk i q ats inn ex en =>
        have hsz : sizeOf inn ≤ n := by
          simp [ClassNode.mk.sizeOf_spec] at hc; omega
        rw [build_back_class, build_back_class]
        by_cases hskip : i = obj.idx
        · simp [hskip, Except.map]
        · simp only [if_neg hskip]
          cases hats : backwards_for_attrs cv m (find_fqname_by_class m obj)
              (ClassNode.mk i q ats inn ex en) ats with
          | error e => simp [hats, Except.map]
          | ok news =>
            simp only [hats]
            by_cases hinn : inn.isEmpty
            · simp [hinn, Except.map]
            · simp only [hinn, Bool.false_eq_true, if_false]
              rw [ih.2 inn hsz (acc ++ news), ih.2 inn hsz ([] ++ news)]
              cases build_back_list cv m obj inn [] ps with
              | error e => simp [Except.map]
              | ok t => simp [Except.map]
    · intro l hl acc
      cases l with
      | nil => simp [build_back_list, Except.map]
      | cons c rest =>
        have hszc : sizeOf c ≤ n := by simp [List.cons.sizeOf_spec] at hl; omega
        have hszr : sizeOf rest ≤ n := by simp [List.cons.sizeOf_spec] at hl; omega
        rw [build_back_list, build_back_list]
        rw [ih.1 c hszc acc]
        cases hbase : build_back_class cv m obj c [] ps with
        | error e => simp [hbase, Except.map]
        | ok n0 =>
          simp only [hbase, Except.map]
          rw [ih.2 rest hszr (acc ++ n0), ih.2 rest hszr n0]
          cases build_back_list cv m obj rest [] ps with
          | error e => simp [Except.map]
          | ok t => simp [Except.map]

/-- The append-only property of the list walk (instance of the aux). -/
theorem build_back_acc (cv : Conv) (m : FqMap) (obj : ClassNode)
    (ps : List String) (l : List ClassNode) (acc : List String) :
    build_back_list cv m obj l acc ps =
      (build_back_list cv m obj l [] ps).map (fun t => acc ++ t) :=
  (build_back_acc_aux cv m obj ps (sizeOf l)).2 l (le_refl _) acc

/-- In a successful run, every visited class's attribute loop succeeds and
its emissions land in the run's output (combined statement for the mutual
walk, by strong induction on size). -/
theorem build_visit_mem_aux (cv : Conv) (m : FqMap) (obj : ClassNode)
    (ps : List String) :
    ∀ n : Nat,
      (∀ c : ClassNode, sizeOf c ≤ n → ∀ acc out path X,
        build_back_class cv m obj c acc ps = .ok out →
        visits_node obj c path = some X →
        ∃ news, backwards_for_attrs cv m (find_fqname_by_class m obj) X X.attrs =
            .ok news ∧ ∀ s ∈ news, s ∈ out) ∧
      (∀ l : List ClassNode, sizeOf l ≤ n → ∀ acc out path X,
        build_back_list cv m obj l acc ps = .ok out →
        visits_list obj l path = some X →
        ∃ news, backwards_for_attrs cv m (find_fqname_by_class m obj) X X.attrs =
            .ok news ∧ ∀ s ∈ news, s ∈ out) := by
  intro n
  induction n with
  | zero =>
    constructor
    · intro c hc
      cases c with
      | mk i q ats inn ex en => simp [ClassNode.mk.sizeOf_spec] at hc
    · intro l hl acc out path X hrun hv
      cases l with
      | nil => simp [visits_list] at hv
      | cons c rest => simp [List.cons.sizeOf_spec] at hl
  | succ n ih =>
    constructor
    · intro c hc acc out path X hrun hv
      cases c with
      | mk i q ats inn ex en =>
        have hsz : sizeOf inn ≤ n := by
          simp [ClassNode.mk.sizeOf_spec] at hc; omega
        simp only [visits_node] at hv
        rw [build_back_class] at hrun
        by_cases hskip : i = obj.idx
        · rw [if_pos hskip] at hv; cases hv
        · rw [if_neg hskip] at hv hrun
          cases hats : backwards_for_attrs cv m (find_fqname_by_class m obj)
              (ClassNode.mk i q ats inn ex en) ats with
          | error e => simp [hats] at hrun
          | ok news =>
            simp only [hats] at hrun
            cases path with
            | nil =>
              injection hv with hX
              subst hX
              refine ⟨news, hats, ?_⟩
              intro s hs
              by_cases hinn : inn.isEmpty
              · rw [if_pos hinn] at hrun
                injection hrun with hout
                rw [← hout]
                exact List.mem_append_right _ hs
              · rw [if_neg hinn] at hrun
                rw [build_back_acc] at hrun
                cases hbase : build_back_list cv m obj inn [] ps with
                | error e => rw [hbase] at hrun; cases hrun
                | ok t =>
                  rw [hbase] at hrun
                  injection hrun with hout
                  rw [← hout]
                  exact List.mem_append_left _ (List.mem_append_right _ hs)
            | cons p0 prest =>
              by_cases hinn : inn.isEmpty
              · rw [List.isEmpty_iff.mp hinn] at hv
                simp [visits_list] at hv
              · rw [if_neg hinn] at hrun
                exact ih.2 inn hsz (acc ++ news) out (p0 :: prest) X hrun hv
    · intro l hl acc out path X hrun hv
      cases l with
      | nil => simp [visits_list] at hv
      | cons c rest =>
        have hszc : sizeOf c ≤ n := by simp [List.cons.sizeOf_spec] at hl; omega
        have hszr : sizeOf rest ≤ n := by simp [List.cons.sizeOf_spec] at hl; omega
        rw [build_back_list] at hrun
        cases hcls : build_back_class cv m obj c acc ps with
        | error e => simp [hcls] at hrun
        | ok acc2 =>
          simp only [hcls] at hrun
          cases path with
          | nil => simp [visits_list] at hv
          | cons p0 prest =>
            cases p0 with
            | zero =>
              rw [visits_list] at hv
              obtain ⟨news, hnews, hsub⟩ := ih.1 c hszc acc acc2 prest X hcls hv
              refine ⟨news, hnews, fun s hs => ?_⟩
              have h2 := hsub s hs
              rw [build_back_acc] at hrun
              cases hbase : build_back_list cv m obj rest [] ps with
              | error e => rw [hbase] at hrun; cases hrun
              | ok t =>
                rw [hbase] at hrun
                injection hrun with hout
                rw [← hout]
                exact List.mem_append_left _ h2
            | succ i0 =>
              rw [visits_list] at hv
              exact ih.2 rest hszr acc2 out (i0 :: prest) X hrun hv

/-! Claim C4. -/

/-- Claim C4: relationship inference is accumulation-free and deterministic:
the backwards walk never reads the list it extends — on any accumulator its
result is exactly the fresh `relationship_backrefs` output appended to that
accumulator — and `relationship_backrefs` always seeds the walk with a new
empty list, so invoking it twice on the same unmodified state returns
field-for-field identical lists and no field from one call can leak into the
next.  (The embedding is faithfully pure: the source walk only appends to
its local `relationships` list and assigns nothing to the filter object or
to the class graph; the only state writes live in `set_classes`.) -/
theorem relationship_backrefs_idempotent (cv : Conv) (st : FilterState)
    (obj : ClassNode) (ps : List String) (acc : List String) :
    build_backwards_relationships cv st.fqname_map obj st.classes acc ps =
      (relationship_backrefs cv st obj ps).map (fun t => acc ++ t) :=
  build_back_acc cv st.fqname_map obj ps st.classes acc

/-! Claim C3. -/

/-- Claim C3 (relationship symmetry): let X be any class visited by the
backwards walk for target Y (any index path into the registered graph), with
an attribute `a` of complex resolved type whose first type reference
resolves, in X's scope, to exactly (Y's recorded fqname, Y), Y not an
enumeration.  When the whole inference run succeeds, then: (1) for scalar
`a`, Y's synthesized backrefs contain the back-reference field whose
relationship targets X's rendered name and whose foreign key is
"X.<attr>_id"; (2) the template-side foreign key on X (modelled from the
spec as `forward_foreign_key_field`) is named `<attr>_id` with the
`relationship_definition` column body pointing at Y's table — the same field
the back-reference links; (3) for list-valued `a`, the foreign-key field and
the back-reference are emitted into Y's backrefs (the many side), pointing
at X's table; and (4) `is_many_to_one` is `some false` for the list-valued
attribute, so the templates emit no foreign key on X itself. -/
theorem relationship_symmetry (cv : Conv) (st : FilterState) (X Y : ClassNode)
    (a : Attr) (t0 : AttrType) (ts : List AttrType) (fqX fqY : String)
    (ps : List String) (path : List Nat) (out : List String)
    (hrun : relationship_backrefs cv st Y ps = .ok out)
    (hvisit : visits_list Y st.classes path = some X)
    (ha : a ∈ X.attrs)
    (hts : a.types = t0 :: ts)
    (hcomplex : has_complex_types (type_names cv a [class_name cv X.qname]) = true)
    (hXfq : find_fqname_by_class st.fqname_map X = some fqX)
    (hYfq : find_fqname_by_class st.fqname_map Y = some fqY)
    (hres : find_class_by_qname cv st.fqname_map t0.qname (split_on_dot fqX) =
      .ok (fqY, Y))
    (hYenum : Y.is_enumeration = false) :
    (a.is_list = false →
      backref_scalar_str (cv.field_case (class_name cv X.qname))
        (dotted_class_name cv fqX) (cv.field_case a.name) ∈ out) ∧
    (Y.extensions = [] → ∀ tn, table_name cv (split_on_dot fqY) = some tn →
      forward_foreign_key_field cv st.fqname_map a (split_on_dot fqX) =
        .ok (cv.field_case a.name ++ "_id", fk_decl_str tn)) ∧
    (a.is_list = true → ∃ tnX,
      table_name cv (split_on_dot fqX) = some tnX ∧
      fk_str (cv.field_case (class_name cv X.qname)) (cv.field_case a.name) tnX ∈ out ∧
      backref_list_str (cv.field_case (class_name cv X.qname))
        (dotted_class_name cv fqX) (cv.field_case a.name) ∈ out) ∧
    (a.is_list = true →
      has_complex_types (type_names cv a (split_on_dot fqX)) = true →
      is_many_to_one cv st.fqname_map a (split_on_dot fqX) = .ok (some false)) := by
  obtain ⟨news, hnews, hsub⟩ :=
    (build_visit_mem_aux cv st.fqname_map Y ps (sizeOf st.classes)).2
      st.classes (le_refl _) [] out path X hrun hvisit
  obtain ⟨nra, hnra, hnrasub⟩ :=
    backwards_for_attrs_each cv st.fqname_map _ X X.attrs news a hnews ha
  refine ⟨?_, ?_, ?_, ?_⟩
  · intro hl
    have hcomp : backwards_for_attr cv st.fqname_map
        (find_fqname_by_class st.fqname_map Y) X a =
        .ok [backref_scalar_str (cv.field_case (class_name cv X.qname))
          (dotted_class_name cv fqX) (cv.field_case a.name)] := by
      simp [backwards_for_attr, hcomplex, hXfq, hYfq, hts, hres, hl, hYenum]
    rw [hcomp] at hnra
    injection hnra with hn
    refine hsub _ (hnrasub _ ?_)
    rw [← hn]
    simp
  · intro hyext tn htn
    simp [forward_foreign_key_field, relationship_definition, hts, hres, hyext, htn,
      Except.map]
  · intro hl
    have hcomp : backwards_for_attr cv st.fqname_map
        (find_fqname_by_class st.fqname_map Y) X a =
        (match table_name cv (split_on_dot fqX) with
         | none => .error ("table_name does not terminate")
         | some tn =>
            .ok [fk_str (cv.field_case (class_name cv X.qname))
                   (cv.field_case a.name) tn,
                 backref_list_str (cv.field_case (class_name cv X.qname))
                   (dotted_class_name cv fqX) (cv.field_case a.name)]) := by
      simp [backwards_for_attr, hcomplex, hXfq, hYfq, hts, hres, hl]
    rw [hcomp] at hnra
    cases htn : table_name cv (split_on_dot fqX) with
    | none => rw [htn] at hnra; cases hnra
    | some tnX =>
      rw [htn] at hnra
      injection hnra with hn
      refine ⟨tnX, rfl, ?_, ?_⟩
      · refine hsub _ (hnrasub _ ?_)
        rw [← hn]; simp
      · refine hsub _ (hnrasub _ ?_)
        rw [← hn]; simp
  · intro hl hc2
    simp [is_many_to_one, hc2, hts, hres, hl]

/-- Claim C3 witness: the scalar instance (X with `y : Y`) and the list
instance (X with `ys : List[Y]`), both with target Y, instantiating the four
conclusions of the symmetry theorem. -/
theorem relationship_symmetry_witness :
    (backref_scalar_str ("X") ("X") ("y") ∈ [backref_scalar_str ("X") ("X") ("y")]) ∧
    forward_foreign_key_field conv0 scalar_state.fqname_map
      (scalar_attr ("y") [tref ("Y")]) (split_on_dot ("X")) =
      .ok (("y_id"), fk_decl_str ("Y")) ∧
    (∃ tnX, table_name conv0 (split_on_dot ("X")) = some tnX ∧
      fk_str ("X") ("ys") tnX ∈
        [fk_str ("X") ("ys") ("X"), backref_list_str ("X") ("X") ("ys")] ∧
      backref_list_str ("X") ("X") ("ys") ∈
        [fk_str ("X") ("ys") ("X"), backref_list_str ("X") ("X") ("ys")]) ∧
    is_many_to_one conv0 list_state.fqname_map (list_attr ("ys") [tref ("Y")])
      (split_on_dot ("X")) = .ok (some false) := by
  have hs := relationship_symmetry conv0 scalar_state x_scalar_y y_class
    (scalar_attr ("y") [tref ("Y")]) (tref ("Y")) [] ("X") ("Y") [] [0]
    [backref_scalar_str ("X") ("X") ("y")]
    (by rfl) (by rfl) (by decide) (by rfl) (by decide) (by rfl) (by rfl)
    (by rfl) (by rfl)
  have hlst := relationship_symmetry conv0 list_state x_list_y y_class
    (list_attr ("ys") [tref ("Y")]) (tref ("Y")) [] ("X") ("Y") [] [0]
    [fk_str ("X") ("ys") ("X"), backref_list_str ("X") ("X") ("ys")]
    (by rfl) (by rfl) (by decide) (by rfl) (by decide) (by rfl) (by rfl)
    (by rfl) (by rfl)
  exact ⟨hs.1 rfl, hs.2.1 rfl ("Y") (by rfl), hlst.2.2.1 rfl,
    hlst.2.2.2 rfl (by decide)⟩

/-! Claim C10. -/

/-- A successful double-underscore drop removes at least two characters. -/
theorem drop_first_seg_length :
    ∀ l r, drop_first_seg l = some r → r.length + 2 ≤ l.length := by
  intro l
  induction l with
  | nil => intro r h; simp [drop_first_seg] at h
  | cons c rest ih =>
    intro r h
    by_cases hc : c = '_'
    · cases rest with
      | nil => simp [drop_first_seg, hc] at h
      | cons c2 rest2 =>
        by_cases hc2 : c2 = '_'
        · have he : drop_first_seg (c :: c2 :: rest2) = some rest2 := by
            simp [drop_first_seg, hc, hc2]
          rw [he] at h
          injection h with h'
          subst h'
          simp
        · have he : drop_first_seg (c :: c2 :: rest2) =
              drop_first_seg (c2 :: rest2) := by
            simp [drop_first_seg, hc, hc2]
          rw [he] at h
          have := ih r h
          simp at this ⊢
          omega
    · cases rest with
      | nil => simp [drop_first_seg, hc] at h
      | cons c2 rest2 =>
        have he : drop_first_seg (c :: c2 :: rest2) =
            drop_first_seg (c2 :: rest2) := by
          simp [drop_first_seg, hc]
        rw [he] at h
        have := ih r h
        simp at this ⊢
        omega

/-- Dropping through a separator that follows a clean segment (no double
underscore inside, no trailing underscore) lands exactly after the
separator. -/
theorem drop_first_seg_join :
    ∀ (a sfx : List Char), drop_first_seg a = none → a.getLast? ≠ some '_' →
      drop_first_seg (a ++ '_' :: '_' :: sfx) = some sfx := by
  intro a
  induction a with
  | nil => intro sfx _ _; simp [drop_first_seg]
  | cons c a' ih =>
    intro sfx hfree hlast
    by_cases hc : c = '_'
    · cases a' with
      | nil => exact absurd (by simp [hc]) hlast
      | cons c2 a'' =>
        by_cases hc2 : c2 = '_'
        · simp [drop_first_seg, hc, hc2] at hfree
        · have hfree' : drop_first_seg (c2 :: a'') = none := by
            have he : drop_first_seg (c :: c2 :: a'') =
                drop_first_seg (c2 :: a'') := by
              simp [drop_first_seg, hc, hc2]
            rw [he] at hfree; exact hfree
          have hlast' : (c2 :: a'').getLast? ≠ some '_' := by
            simpa [List.getLast?_cons_cons] using hlast
          have := ih sfx hfree' hlast'
          simpa [drop_first_seg, hc, hc2] using this
    · cases a' with
      | nil => simp [drop_first_seg, hc]
      | cons c2 a'' =>
        have hfree' : drop_first_seg (c2 :: a'') = none := by
          have he : drop_first_seg (c :: c2 :: a'') =
              drop_first_seg (c2 :: a'') := by
            simp [drop_first_seg, hc]
          rw [he] at hfree; exact hfree
        have hlast' : (c2 :: a'').getLast? ≠ some '_' := by
          simpa [List.getLast?_cons_cons] using hlast
        have := ih sfx hfree' hlast'
        simpa [drop_first_seg, hc] using this

/-- The truncation loop, run on a double-underscore join of clean segments
whose last segment fits the limit, terminates with a result of at most 63
characters. -/
theorem shorten_loop_join :
    ∀ (fuel : Nat) (segs : List String), segs ≠ [] →
      (∀ s ∈ segs, drop_first_seg s.data = none) →
      (∀ s ∈ segs, s.data.getLast? ≠ some '_') →
      (∀ s, segs.getLast? = some s → s.length ≤ 63) →
      (join_uu segs).data.length < fuel →
      ∃ r, shorten_loop fuel (join_uu segs).data = some r ∧ r.length ≤ 63 := by
  intro fuel
  induction fuel with
  | zero => intro segs _ _ _ _ hlt; omega
  | succ fuel ih =>
    intro segs hne hfree hlastc hlast hlt
    have hstep : shorten_loop (fuel + 1) ((join_uu segs).data) =
        (if (join_uu segs).data.length ≤ 63 then some ((join_uu segs).data)
         else match drop_first_seg ((join_uu segs).data) with
           | none => none
           | some rest2 => shorten_loop fuel rest2) := rfl
    by_cases hfit : (join_uu segs).data.length ≤ 63
    · refine ⟨(join_uu segs).data, ?_, hfit⟩
      rw [hstep, if_pos hfit]
    · match segs, hne with
      | [s], _ =>
        have h63 : s.length ≤ 63 := hlast s (by simp)
        have : (join_uu [s]).data.length = s.length := by
          show s.data.length = s.length
          rfl
        omega
      | s :: s2 :: rest, _ =>
        have hjoin : (join_uu (s :: s2 :: rest)).data =
            s.data ++ '_' :: '_' :: (join_uu (s2 :: rest)).data := by
          show ((s ++ "__") ++ join_uu (s2 :: rest)).data = _
          rw [String.data_append, String.data_append, List.append_assoc]
          rfl
        have hdrop : drop_first_seg ((join_uu (s :: s2 :: rest)).data) =
            some ((join_uu (s2 :: rest)).data) := by
          rw [hjoin]
          exact drop_first_seg_join s.data _ (hfree s (by simp)) (hlastc s (by simp))
        have hlen : (join_uu (s2 :: rest)).data.length + 2 ≤
            (join_uu (s :: s2 :: rest)).data.length := by
          rw [hjoin]; simp
        obtain ⟨r, hr, hr63⟩ := ih (s2 :: rest) (by simp)
          (fun x hx => hfree x (by simp [hx]))
          (fun x hx => hlastc x (by simp [hx]))
          (fun x hx => hlast x (by simpa using hx))
          (by omega)
        refine ⟨r, ?_, hr63⟩
        rw [hstep, if_neg hfit, hdrop]
        exact hr

/-- Claim C10 (amended): `table_name` terminates with a result of at most 63
characters provided the field-cased segments contain no internal double
underscore, do not end with an underscore, and the last segment is itself at
most 63 characters.  (The counterexample shows the claim false without these
conditions: with a single over-long segment, `split("__", 1)[-1]` returns the
string unchanged and the `while` loop never exits.) -/
theorem table_name_total (cv : Conv) (parents : List String)
    (hne : parents ≠ [])
    (hfree : ∀ s ∈ (parents.map (class_name cv)).map cv.field_case,
      drop_first_seg s.data = none)
    (hlastc : ∀ s ∈ (parents.map (class_name cv)).map cv.field_case,
      s.data.getLast? ≠ some '_')
    (hlast : ∀ s, ((parents.map (class_name cv)).map cv.field_case).getLast? = some s →
      s.length ≤ 63) :
    ∃ t, table_name cv parents = some t ∧ t.length ≤ 63 := by
  have hne' : (parents.map (class_name cv)).map cv.field_case ≠ [] := by
    simpa using hne
  obtain ⟨r, hr, hr63⟩ := shorten_loop_join
    ((join_uu ((parents.map (class_name cv)).map cv.field_case)).data.length + 1)
    ((parents.map (class_name cv)).map cv.field_case) hne' hfree hlastc hlast
    (by omega)
  refine ⟨String.mk r, ?_, by simpa [String.length_mk] using hr63⟩
  show (shorten_loop _ _).map (fun l => String.mk l) = some (String.mk r)
  rw [hr]
  rfl

/-- Claim C10 counterexample: on a single 70-character parent segment the
truncation loop never terminates (`split("__", 1)` finds no separator and
returns the string unchanged, so `len > 63` holds forever); the model maps
the diverging loop to `none`. -/
theorem table_name_overlong_segment_diverges :
    table_name conv0 [String.mk (List.replicate 70 ('a'))] = none := by rfl

/-- Claim C10 witness for the amended theorem. -/
theorem table_name_total_witness :
    ∃ t, table_name conv0 ["abc", "def"] = some t ∧ t.length ≤ 63 :=
  table_name_total conv0 ["abc", "def"] (by decide) (by decide) (by decide)
    (by decide)

/-! Claim C7. -/

/-- Claim C7 (code bug): the claim — enumeration targets never receive
synthesized relationship fields — matches both the spec and the code's own
treatment of enumerations elsewhere (the scalar branch of
`build_backwards_relationships` is guarded by `is_enumeration`, and
`sql_alchemy_column` renders list-of-enumeration attributes as
`Column(ARRAY(StringEnum))`, never as a joined table).  But the list branch
lacks the guard: at the failing input — class X with the list-valued
attribute `colors` referencing the enumeration Color — the backrefs produced
for Color contain a foreign-key field and a back-reference. -/
theorem relationship_backrefs_enum_list_target :
    relationship_backrefs conv0 enum_list_state color_enum [] =
      .ok [fk_str ("X") ("colors") ("X"),
           backref_list_str ("X") ("X") ("colors")] := by rfl

end Xsd
